import Mathlib

/-
Verification of the Rawi hadith data layer.

Shallow embedding of the TypeScript modules:
  * app/databases/text.ts    : normalizeArabicText, tokenizeArabicText, tokensToSearchKeys
  * app/databases/client.ts  : runTransaction (BEGIN / work / COMMIT, rollback on error)
  * app/databases/migrate.ts : runMigrations, columnExists
  * app/databases/hadith.ts  : seedDatabaseIfEmpty, searchHadithByText, DAO helpers

Strings are modelled as lists of Unicode scalar values (Lean Char).  The
JavaScript regexes in text.ts only mention BMP code points, so operating on
scalar values agrees with JS's UTF-16 code-unit semantics on well-formed text.
-/

namespace Rawi

/-! ### app/databases/text.ts -/

/-- Character class of the regex `[ً-ٟ]` (Arabic diacritics). -/
def isArabicDiacritic (c : Char) : Bool :=
  0x64B ≤ c.toNat && c.toNat ≤ 0x65F

/-- The tatweel / kashida character `ـ`. -/
def isTatweel (c : Char) : Bool :=
  c.toNat = 0x640

/-- Character class of the regex `[إأآ]` (alef with hamza below U+0625, alef
with hamza above U+0623, alef with madda U+0622). -/
def isAlefVariant (c : Char) : Bool :=
  c.toNat = 0x625 || c.toNat = 0x623 || c.toNat = 0x622

/-- Replacement performed by `.replace(/[إأآ]/g, "ا")`: the three alef variants
become bare alef U+0627. -/
def unifyAlef (c : Char) : Char :=
  if isAlefVariant c then Char.ofNat 0x627 else c

/-- Replacement performed by `.replace(/ى/g, "ي")`: alif maqsura U+0649 becomes
ya U+064A. -/
def maqsuraToYa (c : Char) : Char :=
  if c.toNat = 0x649 then Char.ofNat 0x64A else c

/-- Replacement performed by `.replace(/ة/g, "ه")`: ta marbuta U+0629 becomes
ha U+0647. -/
def taMarbutaToHa (c : Char) : Char :=
  if c.toNat = 0x629 then Char.ofNat 0x647 else c

/-- The Arabic Unicode block `[؀-ۿ]`. -/
def isArabicBlock (c : Char) : Bool :=
  0x600 ≤ c.toNat && c.toNat ≤ 0x6FF

/-- The JavaScript whitespace class: the set matched by the regex `\s` and
stripped by `String.prototype.trim` (ECMAScript WhiteSpace plus
LineTerminator). -/
def isJsWhitespace (c : Char) : Bool :=
  c.toNat = 0x9 || c.toNat = 0xA || c.toNat = 0xB || c.toNat = 0xC ||
  c.toNat = 0xD || c.toNat = 0x20 || c.toNat = 0xA0 || c.toNat = 0x1680 ||
  (0x2000 ≤ c.toNat && c.toNat ≤ 0x200A) || c.toNat = 0x2028 ||
  c.toNat = 0x2029 || c.toNat = 0x202F || c.toNat = 0x205F ||
  c.toNat = 0x3000 || c.toNat = 0xFEFF

/-- Drop a trailing run of JavaScript whitespace. -/
def dropTrailingWs : List Char → List Char
  | [] => []
  | c :: rest =>
    let r := dropTrailingWs rest
    if r.isEmpty && isJsWhitespace c then [] else c :: r

/-- JavaScript `String.prototype.trim`: drop leading and trailing whitespace. -/
def trimChars (l : List Char) : List Char :=
  dropTrailingWs (l.dropWhile isJsWhitespace)

/-- Body of `normalizeArabicText` from app/databases/text.ts, on scalar-value
lists.  Each `let` is one `.replace` step of the source, in source order. -/
def normalizeArabicChars (l : List Char) : List Char :=
  let s1 := l.filter (fun c => !isArabicDiacritic c)   -- .replace(/[ً-ٟ]/g, "")
  let s2 := s1.filter (fun c => !isTatweel c)          -- .replace(/ـ/g, "")
  let s3 := s2.map unifyAlef                           -- .replace(/[إأآ]/g, "ا")
  let s4 := s3.map maqsuraToYa                         -- .replace(/ى/g, "ي")
  let s5 := s4.map taMarbutaToHa                       -- .replace(/ة/g, "ه")
  let s6 := s5.filter (fun c => isArabicBlock c || isJsWhitespace c) -- .replace(/[^؀-ۿ\s]/g, "")
  trimChars s6                                         -- .trim()

/-- `normalizeArabicText` from app/databases/text.ts. -/
def normalizeArabicText (s : String) : String :=
  String.mk (normalizeArabicChars s.data)

/-- State machine behind `str.split(/\s+/)`: `acc` is the piece being read
(reversed), `inWs` records whether we are inside a whitespace run whose cut has
already been emitted. -/
def splitWsGo : List Char → List Char → Bool → List (List Char)
  | [], acc, _ => [acc.reverse]
  | c :: rest, acc, inWs =>
    if isJsWhitespace c then
      if inWs then splitWsGo rest acc true
      else acc.reverse :: splitWsGo rest [] true
    else
      splitWsGo rest (c :: acc) false

/-- JavaScript `str.split(/\s+/)` on scalar-value lists: cut at each maximal
whitespace run; a leading or trailing run contributes an empty piece, and the
empty string yields one empty piece, exactly as in JS. -/
def splitWs (l : List Char) : List (List Char) :=
  splitWsGo l [] false

/-- `tokenizeArabicText` from app/databases/text.ts: normalize, split on
whitespace runs, then `.filter(Boolean)` discards empty pieces. -/
def tokenizeArabicText (s : String) : List String :=
  ((splitWs (normalizeArabicText s).data).map String.mk).filter
    (fun t => !t.isEmpty)

/-- `tokensToSearchKeys` from app/databases/text.ts: `tokens.join(" ")`. -/
def tokensToSearchKeys (tokens : List String) : String :=
  String.intercalate " " tokens

/-! ### app/databases/errors.ts and client.ts -/

/-- `DBError` from app/databases/errors.ts.  The source also carries optional
structured metadata and a wrapped cause; both are debug payload with no effect
on control flow, so the model keeps the human-readable message only. -/
structure DBError where
  message : String
deriving Repr, DecidableEq

deriving instance DecidableEq for Except

/-- `runTransaction` from app/databases/client.ts: `BEGIN`, run the work,
`COMMIT`; on any failure a best-effort `ROLLBACK` restores the state at
`BEGIN` and a wrapping `DBError` is rethrown.  The state type is generic so
the same model serves migration and seeding. -/
def runTransaction {σ : Type} {α : Type} (db : σ)
    (work : σ → Except DBError (σ × α)) : σ × Except DBError α :=
  match work db with
  | .ok (db2, a) => (db2, .ok a)
  | .error _ => (db, .error ⟨"Database transaction failed."⟩)

/-! ### app/databases/hadith.ts : data model -/

/-- `HadithRow` from app/databases/hadith.ts.  The SQL `uid` column is added
by `ALTER TABLE` without a NOT NULL constraint, so it is nullable at the SQL
level; every row written by the seeder carries `some uid`. -/
structure HadithRow where
  id : String
  collection : String
  text_ar : String
  text_norm : String
  tokens_json : String
  search_keys : String
  uid : Option String
deriving Repr, DecidableEq

/-- `CollectionRow` from app/databases/hadith.ts. -/
structure CollectionRow where
  id : String
  name : String
  version : Option String
  description : Option String
deriving Repr, DecidableEq

/-- Post-migration database contents (tables of the schema that hadith.ts
reads and writes).  List order models SQLite rowid order. -/
structure DB where
  meta : List (String × String)
  collections : List CollectionRow
  hadith : List HadithRow
  userSelected : List String
deriving Repr, DecidableEq

/-- `SELECT value FROM meta WHERE key = k`, first row if any. -/
def metaGet (db : DB) (k : String) : Option String :=
  (db.meta.find? (fun kv => kv.1 == k)).map Prod.snd

/-- `INSERT OR REPLACE INTO meta(key,value)`: `key` is the primary key, so a
conflicting row is deleted and the new row appended with a fresh rowid. -/
def metaReplace (m : List (String × String)) (k v : String) :
    List (String × String) :=
  m.filter (fun kv => !(kv.1 == k)) ++ [(k, v)]

/-- JavaScript `x || dflt` on an optional string (empty string is falsy). -/
def jsOrDefault (x : Option String) (dflt : String) : String :=
  match x with
  | some s => if s.isEmpty then dflt else s
  | none => dflt

/-- JavaScript `x || null` on an optional string (empty string is falsy). -/
def jsOrNull (x : Option String) : Option String :=
  match x with
  | some s => if s.isEmpty then none else some s
  | none => none

/-- `upsertCollection` from app/databases/hadith.ts:
`INSERT OR IGNORE INTO collections (id, name, version, description)`. -/
def upsertCollection (collectionId : String)
    (displayName version description : Option String) (db : DB) : DB :=
  if db.collections.any (fun c => c.id == collectionId) then db
  else
    { db with collections := db.collections ++
        [⟨collectionId, jsOrDefault displayName collectionId,
          jsOrNull version, jsOrNull description⟩] }

/-- Shape of one entry of the bundled seed JSON. -/
structure SeedItem where
  id : String
  collection : String
  text_ar : String
  tokens : Option (List String)
deriving Repr, DecidableEq

/-- `isValidSeedItem` from app/databases/hadith.ts: JS truthiness of `id`,
`collection` and `text_ar` (the empty string is falsy). -/
def isValidSeedItem (it : SeedItem) : Bool :=
  !it.id.isEmpty && !it.collection.isEmpty && !it.text_ar.isEmpty

/-! ### JSON.stringify on an array of strings (for `tokens_json`) -/

/-- Lower-case hexadecimal digit. -/
def hexDigitChar (n : Nat) : Char :=
  if n < 10 then Char.ofNat (0x30 + n) else Char.ofNat (0x57 + n)

/-- JSON escape of one character, as produced by `JSON.stringify`. -/
def jsonEscapeChar (c : Char) : List Char :=
  if c = '"' then ['\\', '"']
  else if c = '\\' then ['\\', '\\']
  else if c.toNat = 0x8 then ['\\', 'b']
  else if c.toNat = 0x9 then ['\\', 't']
  else if c.toNat = 0xA then ['\\', 'n']
  else if c.toNat = 0xC then ['\\', 'f']
  else if c.toNat = 0xD then ['\\', 'r']
  else if c.toNat < 0x20 then
    ['\\', 'u', '0', '0', hexDigitChar (c.toNat / 16), hexDigitChar (c.toNat % 16)]
  else [c]

/-- `JSON.stringify` of one string. -/
def jsonString (s : String) : String :=
  String.mk ('"' :: s.data.foldr (fun c acc => jsonEscapeChar c ++ acc) ['"'])

/-- `JSON.stringify` of an array of strings. -/
def jsonStringArray (ts : List String) : String :=
  "[" ++ String.intercalate "," (ts.map jsonString) ++ "]"

/-! ### app/databases/hadith.ts : seeding -/

/-- Row computed for one valid item inside the fresh-import loop of
`seedDatabaseIfEmpty`. -/
def seedRowOf (it : SeedItem) : HadithRow :=
  let providedTokens : Option (List String) :=
    match it.tokens with           -- Array.isArray(item.tokens) && length > 0
    | some ts => if ts.length > 0 then some ts else none
    | none => none
  let normalizedTokens : List String :=
    match providedTokens with
    | some ts => (ts.map normalizeArabicText).filter (fun t => !t.isEmpty)
    | none => tokenizeArabicText it.text_ar
  { id := it.id
    collection := it.collection
    text_ar := it.text_ar
    text_norm := normalizeArabicText it.text_ar
    tokens_json := jsonStringArray normalizedTokens
    search_keys := tokensToSearchKeys normalizedTokens
    uid := some (it.collection ++ ":" ++ it.id) }

/-- Stored rows that `INSERT OR REPLACE` must delete before inserting `r`:
those carrying the same non-null uid (the unique index on `uid` is the only
uniqueness constraint on the table, and SQL NULLs never conflict). -/
def uidConflict (r row : HadithRow) : Bool :=
  match r.uid with
  | some u => row.uid == some u
  | none => false

/-- `INSERT OR REPLACE INTO hadith`: delete any row with a conflicting uid,
then append the new row at the end. -/
def insertOrReplaceHadith (r : HadithRow) (db : DB) : DB :=
  { db with hadith := db.hadith.filter (fun row => !uidConflict r row) ++ [r] }

/-- First-occurrence deduplication, the order `Array.from(new Set(xs))`
produces. -/
def dedupFirstAux : List String → List String → List String
  | [], _ => []
  | x :: xs, seen =>
    if seen.contains x then dedupFirstAux xs seen
    else x :: dedupFirstAux xs (x :: seen)

/-- JavaScript `Array.from(new Set(xs))`. -/
def dedupFirst (l : List String) : List String :=
  dedupFirstAux l []

/-- The fresh-import `for` loop of `seedDatabaseIfEmpty`.  `rowFails` is an
oracle saying whether the SQLite engine fails the `INSERT` of a given item;
the source catches that failure locally, logs it, counts the row as skipped
and continues with the next item. -/
def seedLoop (rowFails : SeedItem → Bool) :
    List SeedItem → DB → Nat → Nat → DB × Nat × Nat
  | [], db, ins, skip => (db, ins, skip)
  | it :: rest, db, ins, skip =>
    if !isValidSeedItem it then
      seedLoop rowFails rest db ins (skip + 1)
    else if rowFails it then
      seedLoop rowFails rest db ins (skip + 1)
    else
      seedLoop rowFails rest (insertOrReplaceHadith (seedRowOf it) db) (ins + 1) skip

/-- Observable outcome of `seedDatabaseIfEmpty`, mirroring its three log
lines. -/
inductive SeedResult where
  | skippedFlagSet
  | skippedExistingRows
  | completed (inserted skipped : Nat)
deriving Repr, DecidableEq

/-- `seedDatabaseIfEmpty` from app/databases/hadith.ts.  The bundled
seed-lite.json asset is not part of the sources, so the item list is a
parameter.  `flagWriteFails` is an oracle for the final meta write inside the
transaction failing; any uncaught failure there aborts and rolls back the
whole transaction (the collection upserts run before the transaction and are
not rolled back). -/
def seedDatabaseIfEmpty (rowFails : SeedItem → Bool) (flagWriteFails : Bool)
    (items : List SeedItem) (db : DB) : DB × Except DBError SeedResult :=
  if metaGet db "seeded" = some "1" then
    (db, .ok .skippedFlagSet)
  else if db.hadith.length > 0 then
    ({ db with meta := metaReplace db.meta "seeded" "1" }, .ok .skippedExistingRows)
  else
    let uniqueCollections :=
      dedupFirst ((items.filter isValidSeedItem).map SeedItem.collection)
    let db1 := uniqueCollections.foldl
      (fun d col => upsertCollection col none none none d) db
    runTransaction db1 (fun d =>
      let (d2, ins, skip) := seedLoop rowFails items d 0 0
      if flagWriteFails then .error ⟨"SQL execution failed."⟩
      else .ok ({ d2 with meta := metaReplace d2.meta "seeded" "1" },
                SeedResult.completed ins skip))

/-! ### app/databases/hadith.ts : search DAO -/

/-- SQLite whitespace skipped by text-to-integer casts. -/
def isSqliteSpace (c : Char) : Bool :=
  c.toNat = 0x20 || (0x9 ≤ c.toNat && c.toNat ≤ 0xD)

/-- Value of the longest leading decimal-digit run (0 when there is none). -/
def decimalRunVal (l : List Char) : Int :=
  (l.takeWhile (fun c => c.isDigit)).foldl
    (fun acc c => acc * 10 + ((c.toNat : Int) - 0x30)) 0

/-- SQLite `CAST(text AS INTEGER)`: skip leading whitespace, optional sign,
then the longest decimal-digit run; no digits means 0.  (Real SQLite
saturates at the signed 64-bit range; the ids in this app are tiny, so the
unbounded Int is a harmless idealisation.) -/
def castTextToInt (s : String) : Int :=
  match s.data.dropWhile isSqliteSpace with
  | '-' :: rest => -(decimalRunVal rest)
  | '+' :: rest => decimalRunVal rest
  | l => decimalRunVal l

/-- Lexicographic strict order on code-point lists; for valid scalar values
this coincides with SQLite's BINARY collation (bytewise UTF-8 comparison). -/
def lexLTNat : List Nat → List Nat → Bool
  | [], [] => false
  | [], _ :: _ => true
  | _ :: _, [] => false
  | x :: xs, y :: ys =>
    if x < y then true else if x = y then lexLTNat xs ys else false

/-- Code points of a string, the key SQLite's BINARY collation compares. -/
def strKey (s : String) : List Nat :=
  s.data.map Char.toNat

/-- Boolean total order realising `ORDER BY collection, CAST(id AS INTEGER)
ASC`. -/
def rowLE (a b : HadithRow) : Bool :=
  if lexLTNat (strKey a.collection) (strKey b.collection) then true
  else if strKey a.collection = strKey b.collection then
    castTextToInt a.id ≤ castTextToInt b.id
  else false

/-- ASCII case folding applied by SQLite's default `LIKE`. -/
def likeFoldChar (c : Char) : Char :=
  if 0x41 ≤ c.toNat && c.toNat ≤ 0x5A then Char.ofNat (c.toNat + 32) else c

/-- Helper for the `%` wildcard: `likeTail k s` holds iff `k` accepts some
suffix of `s`. -/
def likeTail (k : List Char → Bool) : List Char → Bool
  | [] => k []
  | c :: s => k (c :: s) || likeTail k s

/-- SQLite `LIKE` with no ESCAPE clause: `%` matches any run of characters,
`_` exactly one, and plain characters compare after ASCII case folding. -/
def likeMatch : List Char → List Char → Bool
  | [], s => s.isEmpty
  | p :: ps, s =>
    if p = '%' then likeTail (fun t => likeMatch ps t) s
    else
      match s with
      | [] => false
      | c :: s2 =>
        if p = '_' then likeMatch ps s2
        else (likeFoldChar p == likeFoldChar c) && likeMatch ps s2

/-- Propositional form of `rowLE`, for the sorting lemmas. -/
def rowLEP (a b : HadithRow) : Prop :=
  rowLE a b = true

instance : DecidableRel rowLEP :=
  fun a b => inferInstanceAs (Decidable (rowLE a b = true))

/-- `searchHadithByText` from app/databases/hadith.ts:
`SELECT * FROM hadith WHERE search_keys LIKE ? ORDER BY collection,
CAST(id AS INTEGER) ASC LIMIT 100` with parameter `'%' + q + '%'` for
`q = normalizeArabicText(queryText)`.  `insertionSort` is one
determinisation of SQLite's unspecified relative order of rows whose sort
keys are equal. -/
def searchHadithByText (db : DB) (queryText : String) : List HadithRow :=
  let q := normalizeArabicText queryText
  let pat := '%' :: q.data ++ ['%']
  (((db.hadith.filter (fun r => likeMatch pat r.search_keys.data)).insertionSort
    rowLEP).take 100)

/-! ### app/databases/migrate.ts -/

/-- Schema bookkeeping for `runMigrations`: which tables, columns and indexes
exist, plus the two connection-level PRAGMA settings. -/
structure SchemaState where
  hasMetaTable : Bool
  hasCollectionsTable : Bool
  hasHadithTable : Bool
  hadithHasUidColumn : Bool
  hasUserSelectedTable : Bool
  hasIdxCollection : Bool
  hasIdxSearch : Bool
  hasIdxUidUnique : Bool
  journalWal : Bool
  foreignKeysOn : Bool
deriving Repr, DecidableEq

/-- Database state seen by the migrator: schema bookkeeping plus table
contents.  (hadith.ts runs after migration against the fixed schema, so its
model `DB` carries the contents only.) -/
structure MigDB where
  schema : SchemaState
  meta : List (String × String)
  collections : List CollectionRow
  hadith : List HadithRow
  userSelected : List String
deriving Repr, DecidableEq

/-- `columnExists("hadith", "uid")` from app/databases/migrate.ts, the only
call site: `PRAGMA table_info(hadith)` checked for a row named `uid`. -/
def columnExists (s : MigDB) : Bool :=
  s.schema.hadithHasUidColumn

/-- `CREATE TABLE IF NOT EXISTS meta (key TEXT PRIMARY KEY, value TEXT)`. -/
def createMetaTable (s : MigDB) : MigDB :=
  if s.schema.hasMetaTable then s
  else { s with schema := { s.schema with hasMetaTable := true }, meta := [] }

/-- `CREATE TABLE IF NOT EXISTS collections (...)`. -/
def createCollectionsTable (s : MigDB) : MigDB :=
  if s.schema.hasCollectionsTable then s
  else { s with
      schema := { s.schema with hasCollectionsTable := true }
      collections := [] }

/-- `CREATE TABLE IF NOT EXISTS hadith (...)`: the freshly created table has
no `uid` column (it is added right below by the schema-evolution check). -/
def createHadithTable (s : MigDB) : MigDB :=
  if s.schema.hasHadithTable then s
  else { s with
      schema := { s.schema with hasHadithTable := true, hadithHasUidColumn := false }
      hadith := [] }

/-- `ALTER TABLE hadith ADD COLUMN uid TEXT`: the new column is NULL on every
existing row. -/
def addUidColumn (s : MigDB) : MigDB :=
  { s with
    schema := { s.schema with hadithHasUidColumn := true }
    hadith := s.hadith.map (fun r => { r with uid := none }) }

/-- `UPDATE hadith SET uid = collection || ':' || id WHERE uid IS NULL`. -/
def backfillUid (s : MigDB) : MigDB :=
  { s with hadith := s.hadith.map (fun r =>
      match r.uid with
      | none => { r with uid := some (r.collection ++ ":" ++ r.id) }
      | some _ => r) }

/-- Non-null uid values stored in the table, in row order. -/
def someUids (rows : List HadithRow) : List String :=
  rows.filterMap (fun r => r.uid)

/-- `CREATE UNIQUE INDEX IF NOT EXISTS idx_hadith_uid ON hadith(uid)`:
creating the index fails when two rows share an equal non-null uid (SQL NULLs
never conflict). -/
def createUniqueIndexUid (s : MigDB) : Except DBError MigDB :=
  if s.schema.hasIdxUidUnique then .ok s
  else if (someUids s.hadith).Nodup then
    .ok { s with schema := { s.schema with hasIdxUidUnique := true } }
  else .error ⟨"SQL execution failed."⟩

/-- `CREATE TABLE IF NOT EXISTS user_selected_collections (...)`. -/
def createUserSelectedTable (s : MigDB) : MigDB :=
  if s.schema.hasUserSelectedTable then s
  else { s with
      schema := { s.schema with hasUserSelectedTable := true }
      userSelected := [] }

/-- One `INSERT OR IGNORE INTO collections (id, name) VALUES (c, c)`. -/
def bfStep (acc : MigDB) (c : String) : MigDB :=
  if acc.collections.any (fun k => k.id == c) then acc
  else { acc with collections := acc.collections ++ [⟨c, c, none, none⟩] }

/-- `INSERT OR IGNORE INTO collections (id, name) SELECT DISTINCT collection,
collection FROM hadith`. -/
def backfillCollections (s : MigDB) : MigDB :=
  (dedupFirst (s.hadith.map (fun r => r.collection))).foldl bfStep s

/-- Body of the migration transaction, in source order. -/
def migrateWork (s0 : MigDB) : Except DBError (MigDB × Unit) :=
  let s1 := createMetaTable s0
  let s2 := createCollectionsTable s1
  let s3 := createHadithTable s2
  let s4 := if columnExists s3 then s3 else backfillUid (addUidColumn s3)
  let s5 := { s4 with
    schema := { s4.schema with hasIdxCollection := true, hasIdxSearch := true } }
  match createUniqueIndexUid s5 with
  | .error e => .error e
  | .ok s6 => .ok (backfillCollections (createUserSelectedTable s6), ())

/-- `runMigrations` from app/databases/migrate.ts: the two PRAGMAs are
connection-level settings issued outside the transaction; every schema step
runs inside one transaction that rolls back as a whole on failure. -/
def runMigrations (s : MigDB) : MigDB × Except DBError Unit :=
  runTransaction
    { s with schema := { s.schema with journalWal := true, foreignKeysOn := true } }
    migrateWork

/-! ### The spec's seven-step normalisation pipeline (for the refinement
claim).  Each step is modelled from the spec's words; the constants of the
ranges are the spec's "fixed" ranges, which the spec inherits from the code. -/

/-- Spec step 1: strip Arabic diacritical marks (a fixed code-point range). -/
def specStripDiacritics (l : List Char) : List Char :=
  l.filter (fun c => !isArabicDiacritic c)

/-- Spec step 2: strip the tatweel/kashida elongation character. -/
def specStripTatweel (l : List Char) : List Char :=
  l.filter (fun c => !isTatweel c)

/-- Spec step 3: unify the three alef-with-hamza/madda variants to bare
alef. -/
def specUnifyAlefs (l : List Char) : List Char :=
  l.map unifyAlef

/-- Spec step 4: map alif maqsura to ya. -/
def specMapMaqsura (l : List Char) : List Char :=
  l.map maqsuraToYa

/-- Spec step 5: map ta marbuta to ha. -/
def specMapTaMarbuta (l : List Char) : List Char :=
  l.map taMarbutaToHa

/-- Spec step 6: strip every character outside the Arabic Unicode block and
whitespace. -/
def specKeepArabicOrWs (l : List Char) : List Char :=
  l.filter (fun c => isArabicBlock c || isJsWhitespace c)

/-- Spec step 7: trim leading and trailing whitespace. -/
def specTrim (l : List Char) : List Char :=
  trimChars l

/-- The spec's transform pipeline, steps 1-7 in exactly this order. -/
def specNormalizePipeline (l : List Char) : List Char :=
  specTrim (specKeepArabicOrWs (specMapTaMarbuta (specMapMaqsura
    (specUnifyAlefs (specStripTatweel (specStripDiacritics l))))))

/-! ### Concrete fixtures used in the claims -/

/-- The spec's seeding example: one record with `text_ar = "بِسْمِ الله"`. -/
def demoItem : SeedItem :=
  ⟨"1", "Bukhari", "بِسْمِ الله", none⟩

/-- An empty post-migration database. -/
def emptyDB : DB :=
  ⟨[], [], [], []⟩

/-- An entirely fresh database file: no tables, no indexes, no contents. -/
def freshMigDB : MigDB :=
  ⟨⟨false, false, false, false, false, false, false, false, false, false⟩,
    [], [], [], []⟩

/-- A second seed item with the same `(collection, id)` pair as `demoItem`
but different text. -/
def demoItem2 : SeedItem :=
  ⟨"1", "Bukhari", "الحمد لله", none⟩

/-- A failure oracle that fails the insert of the row with id "2". -/
def demoFailOracle : SeedItem → Bool :=
  fun it => it.id == "2"

/-- A seed batch with one failing row and one invalid row among good ones. -/
def demoSeedBatch : List SeedItem :=
  [demoItem, ⟨"2", "Bukhari", "الله", none⟩, ⟨"", "Muslim", "الله", none⟩,
   ⟨"3", "Muslim", "الله", none⟩]

/-- A row as stored by a pre-uid build (no `uid` column yet). -/
def demoLegacyRow : HadithRow :=
  ⟨"1", "Bukhari", "الله", "الله", "[]", "الله", none⟩

/-- A legacy database: tables created by an old build, no `uid` column, no
indexes, one stored row. -/
def demoLegacyMigDB : MigDB :=
  ⟨⟨true, true, true, false, false, false, false, false, false, false⟩,
    [], [], [demoLegacyRow], []⟩

/-! ### Helper predicates used by the verification -/

/-- Characters that normalisation can output: not a diacritic, not tatweel,
none of the five replaced letters, and inside the Arabic block or
whitespace.  Such characters pass through every normalisation step
unchanged. -/
def normalKeepChar (c : Char) : Bool :=
  !isArabicDiacritic c && !isTatweel c && !isAlefVariant c &&
  !(c.toNat = 0x649) && !(c.toNat = 0x629) &&
  (isArabicBlock c || isJsWhitespace c)

/-- Characters on which `LIKE` behaves literally: not a wildcard and not an
ASCII letter, so case folding is the identity and no other character folds
onto them. -/
def likeRigid (c : Char) : Bool :=
  decide (c.toNat ≠ 0x25 ∧ c.toNat ≠ 0x5F ∧
    ¬(0x41 ≤ c.toNat ∧ c.toNat ≤ 0x5A) ∧ ¬(0x61 ≤ c.toNat ∧ c.toNat ≤ 0x7A))

/-- Items the fresh-import loop actually inserts: valid and not failed by the
engine. -/
def seedOk (rowFails : SeedItem → Bool) (it : SeedItem) : Bool :=
  isValidSeedItem it && !rowFails it

/-- One iteration of the fresh-import loop, as a fold step. -/
def seedStep (rowFails : SeedItem → Bool) (d : DB) (it : SeedItem) : DB :=
  if seedOk rowFails it then insertOrReplaceHadith (seedRowOf it) d else d

/-- The pre-transaction collection-registration pass of `seedDatabaseIfEmpty`. -/
def seedCollectionsPhase (items : List SeedItem) (db : DB) : DB :=
  (dedupFirst ((items.filter isValidSeedItem).map SeedItem.collection)).foldl
    (fun d col => upsertCollection col none none none d) db

/-- Every schema object `runMigrations` is responsible for exists. -/
def migratedSchema (s : MigDB) : Prop :=
  s.schema.hasMetaTable = true ∧ s.schema.hasCollectionsTable = true ∧
  s.schema.hasHadithTable = true ∧ s.schema.hadithHasUidColumn = true ∧
  s.schema.hasUserSelectedTable = true ∧ s.schema.hasIdxCollection = true ∧
  s.schema.hasIdxSearch = true ∧ s.schema.hasIdxUidUnique = true

/-- The collections backfill has nothing left to insert. -/
def backfillComplete (s : MigDB) : Prop :=
  ∀ r ∈ s.hadith, s.collections.any (fun k => k.id == r.collection) = true

/-! ### Lemmas about the normalizer -/

theorem mem_dropTrailingWs {c : Char} {l : List Char}
    (h : c ∈ dropTrailingWs l) : c ∈ l := by
  induction l with
  | nil => simp [dropTrailingWs] at h
  | cons x xs ih =>
    simp only [dropTrailingWs] at h
    by_cases hc : ((dropTrailingWs xs).isEmpty && isJsWhitespace x) = true
    · rw [if_pos hc] at h
      simp at h
    · rw [if_neg hc] at h
      rcases List.mem_cons.mp h with h | h
      · exact h ▸ List.mem_cons_self _ _
      · exact List.mem_cons_of_mem _ (ih h)

theorem mem_trimChars {c : Char} {l : List Char} (h : c ∈ trimChars l) :
    c ∈ l :=
  (List.dropWhile_sublist _).subset (mem_dropTrailingWs h)

theorem normalKeep_of_mapped {a c : Char}
    (hdia : isArabicDiacritic a = false) (htat : isTatweel a = false)
    (hc : c = taMarbutaToHa (maqsuraToYa (unifyAlef a)))
    (harab : (isArabicBlock c || isJsWhitespace c) = true) :
    normalKeepChar c = true := by
  by_cases hv : isAlefVariant a = true
  · have h1 : taMarbutaToHa (maqsuraToYa (unifyAlef a)) = Char.ofNat 0x627 := by
      rw [unifyAlef, if_pos hv]; decide
    rw [hc, h1]; decide
  · have hv' : isAlefVariant a = false := by
      cases hq : isAlefVariant a
      · rfl
      · exact absurd hq hv
    have hu : unifyAlef a = a := by rw [unifyAlef, hv']; rfl
    by_cases h9 : a.toNat = 0x649
    · have h1 : taMarbutaToHa (maqsuraToYa (unifyAlef a)) = Char.ofNat 0x64A := by
        rw [hu, maqsuraToYa, if_pos h9]; decide
      rw [hc, h1]; decide
    · have hm : maqsuraToYa a = a := by rw [maqsuraToYa, if_neg h9]
      by_cases h2 : a.toNat = 0x629
      · have h1 : taMarbutaToHa (maqsuraToYa (unifyAlef a)) = Char.ofNat 0x647 := by
          rw [hu, hm, taMarbutaToHa, if_pos h2]
        rw [hc, h1]; decide
      · have ht : taMarbutaToHa a = a := by rw [taMarbutaToHa, if_neg h2]
        have hca : c = a := by rw [hc, hu, hm, ht]
        subst hca
        simp [normalKeepChar, hdia, htat, hv', h9, h2, harab]

theorem normalKeep_of_mem_normalize {c : Char} {l : List Char}
    (h : c ∈ normalizeArabicChars l) : normalKeepChar c = true := by
  simp only [normalizeArabicChars] at h
  have h6 := mem_trimChars h
  rw [List.mem_filter] at h6
  obtain ⟨h5, harab⟩ := h6
  rw [List.mem_map] at h5
  obtain ⟨b, hb, hcb⟩ := h5
  rw [List.mem_map] at hb
  obtain ⟨a1, ha1, hba⟩ := hb
  rw [List.mem_map] at ha1
  obtain ⟨a0, ha0, haa⟩ := ha1
  rw [List.mem_filter] at ha0
  obtain ⟨ha00, htat⟩ := ha0
  rw [List.mem_filter] at ha00
  obtain ⟨_, hdia⟩ := ha00
  have hc : c = taMarbutaToHa (maqsuraToYa (unifyAlef a0)) := by
    rw [← hba, ← haa] at hcb
    exact hcb.symm
  exact normalKeep_of_mapped (by simpa using hdia) (by simpa using htat) hc harab

theorem normalizeChars_of_kept {m : List Char}
    (hm : ∀ c ∈ m, normalKeepChar c = true) :
    normalizeArabicChars m = trimChars m := by
  have hprops : ∀ c ∈ m, isArabicDiacritic c = false ∧ isTatweel c = false ∧
      isAlefVariant c = false ∧ ¬(c.toNat = 0x649) ∧ ¬(c.toNat = 0x629) ∧
      (isArabicBlock c || isJsWhitespace c) = true := by
    intro c hcm
    have h0 := hm c hcm
    simp only [normalKeepChar, Bool.and_eq_true, Bool.not_eq_true',
      decide_eq_false_iff_not] at h0
    obtain ⟨⟨⟨⟨⟨hd, ht⟩, hvv⟩, h9⟩, h2⟩, ho⟩ := h0
    exact ⟨hd, ht, hvv, h9, h2, ho⟩
  have f1 : m.filter (fun c => !isArabicDiacritic c) = m :=
    List.filter_eq_self.mpr (fun c hcm => by simp [(hprops c hcm).1])
  have f2 : m.filter (fun c => !isTatweel c) = m :=
    List.filter_eq_self.mpr (fun c hcm => by simp [(hprops c hcm).2.1])
  have m3 : m.map unifyAlef = m := by
    rw [List.map_congr_left (g := id)
      (fun c hcm => by simp [unifyAlef, (hprops c hcm).2.2.1])]
    exact List.map_id m
  have m4 : m.map maqsuraToYa = m := by
    rw [List.map_congr_left (g := id)
      (fun c hcm => by simp [maqsuraToYa, (hprops c hcm).2.2.2.1])]
    exact List.map_id m
  have m5 : m.map taMarbutaToHa = m := by
    rw [List.map_congr_left (g := id)
      (fun c hcm => by simp [taMarbutaToHa, (hprops c hcm).2.2.2.2.1])]
    exact List.map_id m
  have f6 : m.filter (fun c => isArabicBlock c || isJsWhitespace c) = m :=
    List.filter_eq_self.mpr (fun c hcm => (hprops c hcm).2.2.2.2.2)
  simp only [normalizeArabicChars, f1, f2, m3, m4, m5, f6]

theorem dropTrailingWs_idem (l : List Char) :
    dropTrailingWs (dropTrailingWs l) = dropTrailingWs l := by
  induction l with
  | nil => rfl
  | cons x xs ih =>
    simp only [dropTrailingWs]
    by_cases hc : ((dropTrailingWs xs).isEmpty && isJsWhitespace x) = true
    · rw [if_pos hc]; rfl
    · rw [if_neg hc]
      simp only [dropTrailingWs, ih]
      rw [if_neg hc]

theorem dropWhile_dropWhile (p : Char → Bool) (l : List Char) :
    (l.dropWhile p).dropWhile p = l.dropWhile p := by
  cases h : l.dropWhile p with
  | nil => simp
  | cons x xs =>
    have hx := List.head?_dropWhile_not p l
    rw [h] at hx
    simp only [List.head?_cons] at hx
    simp [List.dropWhile_cons, hx]

theorem dropWhile_dropTrailingWs (l : List Char)
    (h : l.dropWhile isJsWhitespace = l) :
    (dropTrailingWs l).dropWhile isJsWhitespace = dropTrailingWs l := by
  cases l with
  | nil => rfl
  | cons x xs =>
    have hx : isJsWhitespace x = false := by
      by_contra hxx
      have hxt : isJsWhitespace x = true := by
        cases hq : isJsWhitespace x
        · exact absurd hq hxx
        · rfl
      rw [List.dropWhile_cons, if_pos hxt] at h
      have := congrArg List.length h
      have hle := List.Sublist.length_le (List.dropWhile_sublist (l := xs) isJsWhitespace)
      simp at this
      omega
    simp only [dropTrailingWs]
    by_cases hc : ((dropTrailingWs xs).isEmpty && isJsWhitespace x) = true
    · rw [if_pos hc]; rfl
    · rw [if_neg hc]
      rw [List.dropWhile_cons, if_neg (by simp [hx])]

theorem trimChars_idem (l : List Char) :
    trimChars (trimChars l) = trimChars l := by
  unfold trimChars
  rw [dropWhile_dropTrailingWs _ (dropWhile_dropWhile _ l), dropTrailingWs_idem]

theorem trimChars_normalizeChars (l : List Char) :
    trimChars (normalizeArabicChars l) = normalizeArabicChars l := by
  simp only [normalizeArabicChars]
  exact trimChars_idem _

theorem normalizeChars_idem (l : List Char) :
    normalizeArabicChars (normalizeArabicChars l) = normalizeArabicChars l := by
  rw [normalizeChars_of_kept (fun c hc => normalKeep_of_mem_normalize hc)]
  exact trimChars_normalizeChars l

/-! ### Lemmas about the LIKE matcher -/

theorem char_eq_of_toNat {a b : Char} (h : a.toNat = b.toNat) : a = b := by
  have := congrArg Char.ofNat h
  rwa [Char.ofNat_toNat, Char.ofNat_toNat] at this

theorem toNat_ofNat_small {n : Nat} (h : n < 0xD800) : (Char.ofNat n).toNat = n := by
  rw [Char.ofNat, dif_pos (Or.inl h)]
  rfl

theorem likeFold_self {c : Char} (h : likeRigid c = true) :
    likeFoldChar c = c := by
  have hp := of_decide_eq_true h
  rw [likeFoldChar, if_neg]
  intro hc
  rw [Bool.and_eq_true, decide_eq_true_eq, decide_eq_true_eq] at hc
  exact hp.2.2.1 hc

theorem likeFold_inj_rigid {c x : Char} (h : likeRigid c = true)
    (he : likeFoldChar x = likeFoldChar c) : x = c := by
  have hp := of_decide_eq_true h
  rw [likeFold_self h] at he
  by_cases hx : (0x41 ≤ x.toNat && x.toNat ≤ 0x5A) = true
  · rw [likeFoldChar, if_pos hx] at he
    rw [Bool.and_eq_true, decide_eq_true_eq, decide_eq_true_eq] at hx
    have hv : (Char.ofNat (x.toNat + 32)).toNat = x.toNat + 32 :=
      toNat_ofNat_small (by omega)
    have hcn : c.toNat = x.toNat + 32 := by rw [← he, hv]
    exact absurd ⟨by omega, by omega⟩ hp.2.2.2
  · rw [likeFoldChar, if_neg hx] at he
    exact he

theorem likeMatch_nil (s : List Char) : likeMatch [] s = s.isEmpty := rfl

theorem likeMatch_cons (p : Char) (ps s : List Char) : likeMatch (p :: ps) s =
    (if p = '%' then likeTail (fun t => likeMatch ps t) s
    else
      match s with
      | [] => false
      | c :: s2 =>
        if p = '_' then likeMatch ps s2
        else (likeFoldChar p == likeFoldChar c) && likeMatch ps s2) := rfl

theorem likeTail_iff (k : List Char → Bool) (s : List Char) :
    likeTail k s = true ↔ ∃ u t, u ++ t = s ∧ k t = true := by
  induction s with
  | nil =>
    constructor
    · intro h
      exact ⟨[], [], rfl, h⟩
    · rintro ⟨u, t, hu, hk⟩
      obtain ⟨hu1, hu2⟩ := List.append_eq_nil.mp hu
      subst hu2
      exact hk
  | cons c s ih =>
    simp only [likeTail, Bool.or_eq_true]
    constructor
    · intro h
      rcases h with h | h
      · exact ⟨[], c :: s, rfl, h⟩
      · obtain ⟨u, t, hu, hk⟩ := ih.mp h
        exact ⟨c :: u, t, by rw [List.cons_append, hu], hk⟩
    · rintro ⟨u, t, hu, hk⟩
      cases u with
      | nil =>
        rw [List.nil_append] at hu
        subst hu
        exact Or.inl hk
      | cons a u2 =>
        rw [List.cons_append, List.cons.injEq] at hu
        exact Or.inr (ih.mpr ⟨u2, t, hu.2, hk⟩)

theorem rigid_ne_percent {p : Char} (hp : likeRigid p = true) : ¬(p = '%') := by
  intro hc
  exact (of_decide_eq_true hp).1 (by rw [hc]; rfl)

theorem rigid_ne_underscore {p : Char} (hp : likeRigid p = true) : ¬(p = '_') := by
  intro hc
  exact (of_decide_eq_true hp).2.1 (by rw [hc]; rfl)

theorem likeMatch_rigid_iff {q : List Char} (hq : ∀ c ∈ q, likeRigid c = true)
    (s : List Char) : likeMatch q s = true ↔ s = q := by
  induction q generalizing s with
  | nil => rw [likeMatch_nil, List.isEmpty_iff]
  | cons p ps ih =>
    have hp := hq p (List.mem_cons_self _ _)
    have hps : ∀ c ∈ ps, likeRigid c = true :=
      fun c hc => hq c (List.mem_cons_of_mem _ hc)
    rw [likeMatch_cons, if_neg (rigid_ne_percent hp)]
    cases s with
    | nil => simp
    | cons c s2 =>
      change (if p = '_' then likeMatch ps s2
        else (likeFoldChar p == likeFoldChar c) && likeMatch ps s2) = true ↔ _
      rw [if_neg (rigid_ne_underscore hp), Bool.and_eq_true, beq_iff_eq]
      constructor
      · rintro ⟨hf, hm⟩
        rw [List.cons.injEq]
        exact ⟨likeFold_inj_rigid hp hf.symm, (ih hps s2).mp hm⟩
      · intro h
        rw [List.cons.injEq] at h
        exact ⟨by rw [h.1], (ih hps s2).mpr h.2⟩

theorem likeMatch_endWild {q : List Char} (hq : ∀ c ∈ q, likeRigid c = true)
    (s : List Char) : likeMatch (q ++ ['%']) s = true ↔ ∃ t, q ++ t = s := by
  induction q generalizing s with
  | nil =>
    rw [List.nil_append, likeMatch_cons, if_pos rfl, likeTail_iff]
    constructor
    · intro _
      exact ⟨s, rfl⟩
    · intro _
      exact ⟨s, [], by simp, rfl⟩
  | cons p ps ih =>
    have hp := hq p (List.mem_cons_self _ _)
    have hps : ∀ c ∈ ps, likeRigid c = true :=
      fun c hc => hq c (List.mem_cons_of_mem _ hc)
    rw [List.cons_append, likeMatch_cons, if_neg (rigid_ne_percent hp)]
    cases s with
    | nil =>
      simp
    | cons c s2 =>
      change (if p = '_' then likeMatch (ps ++ ['%']) s2
        else (likeFoldChar p == likeFoldChar c) && likeMatch (ps ++ ['%']) s2) = true ↔ _
      rw [if_neg (rigid_ne_underscore hp), Bool.and_eq_true, beq_iff_eq]
      constructor
      · rintro ⟨hf, hm⟩
        obtain ⟨t, ht⟩ := (ih hps s2).mp hm
        exact ⟨t, by rw [List.cons_append, ht, (likeFold_inj_rigid hp hf.symm)]⟩
      · rintro ⟨t, ht⟩
        rw [List.cons_append, List.cons.injEq] at ht
        exact ⟨by rw [ht.1], (ih hps s2).mpr ⟨t, ht.2⟩⟩

theorem likeMatch_substring {q : List Char} (hq : ∀ c ∈ q, likeRigid c = true)
    (s : List Char) :
    likeMatch ('%' :: (q ++ ['%'])) s = true ↔ ∃ a b, s = a ++ q ++ b := by
  rw [likeMatch_cons, if_pos rfl, likeTail_iff]
  constructor
  · rintro ⟨u, t, hu, hk⟩
    obtain ⟨b, hb⟩ := (likeMatch_endWild hq t).mp hk
    exact ⟨u, b, by rw [← hu, ← hb, List.append_assoc]⟩
  · rintro ⟨a, b, rfl⟩
    exact ⟨a, q ++ b, by rw [List.append_assoc],
      (likeMatch_endWild hq (q ++ b)).mpr ⟨b, rfl⟩⟩

theorem likeRigid_of_normalKeep {c : Char} (h : normalKeepChar c = true) :
    likeRigid c = true := by
  have harab : (isArabicBlock c || isJsWhitespace c) = true := by
    simp only [normalKeepChar, Bool.and_eq_true] at h
    exact h.2
  rw [Bool.or_eq_true] at harab
  apply decide_eq_true
  rcases harab with h1 | h1
  · rw [isArabicBlock, Bool.and_eq_true, decide_eq_true_eq, decide_eq_true_eq] at h1
    exact ⟨by omega, by omega, by omega, by omega⟩
  · rw [isJsWhitespace] at h1
    simp only [Bool.or_eq_true, Bool.and_eq_true, decide_eq_true_eq] at h1
    exact ⟨by omega, by omega, by omega, by omega⟩

theorem likeRigid_of_mem_normalize {c : Char} {l : List Char}
    (h : c ∈ normalizeArabicChars l) : likeRigid c = true :=
  likeRigid_of_normalKeep (normalKeep_of_mem_normalize h)

/-! ### Lemmas about seeding -/

theorem seedLoop_nil (rf : SeedItem → Bool) (db : DB) (ins skip : Nat) :
    seedLoop rf [] db ins skip = (db, ins, skip) := rfl

theorem seedLoop_cons (rf : SeedItem → Bool) (it : SeedItem)
    (rest : List SeedItem) (db : DB) (ins skip : Nat) :
    seedLoop rf (it :: rest) db ins skip =
      (if !isValidSeedItem it then seedLoop rf rest db ins (skip + 1)
       else if rf it then seedLoop rf rest db ins (skip + 1)
       else seedLoop rf rest (insertOrReplaceHadith (seedRowOf it) db) (ins + 1) skip) := rfl

theorem seedLoop_eq (rf : SeedItem → Bool) (items : List SeedItem)
    (db : DB) (ins skip : Nat) :
    seedLoop rf items db ins skip =
      (items.foldl (seedStep rf) db,
       ins + items.countP (seedOk rf),
       skip + items.countP (fun it => !seedOk rf it)) := by
  induction items generalizing db ins skip with
  | nil => simp [seedLoop_nil]
  | cons it rest ih =>
    rw [seedLoop_cons]
    by_cases hv : isValidSeedItem it = true
    · by_cases hf : rf it = true
      · rw [if_neg (by simp [hv]), if_pos hf, ih]
        have hok : seedOk rf it = false := by simp [seedOk, hv, hf]
        simp only [List.foldl_cons, List.countP_cons, seedStep, hok,
          Bool.false_eq_true, if_false, Bool.not_false, if_true, Prod.mk.injEq]
        exact ⟨trivial, by omega, by omega⟩
      · have hok : seedOk rf it = true := by
          simp [seedOk, hv]
          cases hq : rf it
          · rfl
          · exact absurd hq hf
        rw [if_neg (by simp [hv]), if_neg hf, ih]
        simp only [List.foldl_cons, List.countP_cons, seedStep, hok, if_true,
          Bool.not_true, Bool.false_eq_true, if_false, Prod.mk.injEq]
        exact ⟨trivial, by omega, by omega⟩
    · have hv' : isValidSeedItem it = false := by
        cases hq : isValidSeedItem it
        · rfl
        · exact absurd hq hv
      have hok : seedOk rf it = false := by simp [seedOk, hv']
      rw [if_pos (by simp [hv']), ih]
      simp only [List.foldl_cons, List.countP_cons, seedStep, hok,
        Bool.false_eq_true, if_false, Bool.not_false, if_true, Prod.mk.injEq]
      exact ⟨trivial, by omega, by omega⟩

theorem insertOrReplaceHadith_meta (r : HadithRow) (db : DB) :
    (insertOrReplaceHadith r db).meta = db.meta := rfl

theorem insertOrReplaceHadith_collections (r : HadithRow) (db : DB) :
    (insertOrReplaceHadith r db).collections = db.collections := rfl

theorem seedStep_meta (rf : SeedItem → Bool) (d : DB) (it : SeedItem) :
    (seedStep rf d it).meta = d.meta := by
  rw [seedStep]
  split
  · rfl
  · rfl

theorem seedStep_collections (rf : SeedItem → Bool) (d : DB) (it : SeedItem) :
    (seedStep rf d it).collections = d.collections := by
  rw [seedStep]
  split
  · rfl
  · rfl

theorem foldl_seedStep_meta (rf : SeedItem → Bool) (items : List SeedItem)
    (db : DB) : (items.foldl (seedStep rf) db).meta = db.meta := by
  induction items generalizing db with
  | nil => rfl
  | cons it rest ih => rw [List.foldl_cons, ih, seedStep_meta]

theorem foldl_seedStep_collections (rf : SeedItem → Bool) (items : List SeedItem)
    (db : DB) : (items.foldl (seedStep rf) db).collections = db.collections := by
  induction items generalizing db with
  | nil => rfl
  | cons it rest ih => rw [List.foldl_cons, ih, seedStep_collections]

theorem upsertCollection_meta (c : String) (dn v de : Option String) (db : DB) :
    (upsertCollection c dn v de db).meta = db.meta := by
  rw [upsertCollection]
  split
  · rfl
  · rfl

theorem upsertCollection_hadith (c : String) (dn v de : Option String) (db : DB) :
    (upsertCollection c dn v de db).hadith = db.hadith := by
  rw [upsertCollection]
  split
  · rfl
  · rfl

theorem seedCollectionsPhase_meta (items : List SeedItem) (db : DB) :
    (seedCollectionsPhase items db).meta = db.meta := by
  rw [seedCollectionsPhase]
  generalize dedupFirst ((items.filter isValidSeedItem).map SeedItem.collection) = cols
  induction cols generalizing db with
  | nil => rfl
  | cons c rest ih => rw [List.foldl_cons, ih, upsertCollection_meta]

theorem seedCollectionsPhase_hadith (items : List SeedItem) (db : DB) :
    (seedCollectionsPhase items db).hadith = db.hadith := by
  rw [seedCollectionsPhase]
  generalize dedupFirst ((items.filter isValidSeedItem).map SeedItem.collection) = cols
  induction cols generalizing db with
  | nil => rfl
  | cons c rest ih => rw [List.foldl_cons, ih, upsertCollection_hadith]

theorem metaGet_set_self (db : DB) (k v : String) :
    metaGet { db with meta := metaReplace db.meta k v } k = some v := by
  show ((metaReplace db.meta k v).find? (fun kv => kv.1 == k)).map Prod.snd = some v
  rw [metaReplace, List.find?_append]
  have h1 : (db.meta.filter (fun kv => !(kv.1 == k))).find? (fun kv => kv.1 == k) = none :=
    List.find?_eq_none.mpr (by
      intro x hx
      rw [List.mem_filter] at hx
      simpa using hx.2)
  rw [h1]
  simp [List.find?_cons]

theorem seedDatabaseIfEmpty_flagSet (rf : SeedItem → Bool) (ff : Bool)
    (items : List SeedItem) (db : DB) (h : metaGet db "seeded" = some "1") :
    seedDatabaseIfEmpty rf ff items db = (db, .ok .skippedFlagSet) := by
  rw [seedDatabaseIfEmpty, if_pos h]

theorem seedDatabaseIfEmpty_legacyRows (rf : SeedItem → Bool) (ff : Bool)
    (items : List SeedItem) (db : DB) (h : ¬(metaGet db "seeded" = some "1"))
    (hrows : db.hadith.length > 0) :
    seedDatabaseIfEmpty rf ff items db =
      ({ db with meta := metaReplace db.meta "seeded" "1" },
       .ok .skippedExistingRows) := by
  rw [seedDatabaseIfEmpty, if_neg h, if_pos hrows]

theorem seedDatabaseIfEmpty_fresh_error (rf : SeedItem → Bool)
    (items : List SeedItem) (db : DB) (h : ¬(metaGet db "seeded" = some "1"))
    (hempty : db.hadith = []) :
    seedDatabaseIfEmpty rf true items db =
      (seedCollectionsPhase items db, .error ⟨"Database transaction failed."⟩) := by
  rw [seedDatabaseIfEmpty, if_neg h, if_neg (by rw [hempty]; simp)]
  simp only [seedLoop_eq]
  rfl

theorem seedDatabaseIfEmpty_fresh_ok (rf : SeedItem → Bool)
    (items : List SeedItem) (db : DB) (h : ¬(metaGet db "seeded" = some "1"))
    (hempty : db.hadith = []) :
    seedDatabaseIfEmpty rf false items db =
      ({ items.foldl (seedStep rf) (seedCollectionsPhase items db) with
          meta := metaReplace
            (items.foldl (seedStep rf) (seedCollectionsPhase items db)).meta
            "seeded" "1" },
       .ok (.completed (items.countP (seedOk rf))
         (items.countP (fun it => !seedOk rf it)))) := by
  rw [seedDatabaseIfEmpty, if_neg h, if_neg (by rw [hempty]; simp)]
  simp only [seedLoop_eq, Nat.zero_add]
  rfl

/-! ### Lemmas about seeded rows and uid uniqueness -/

theorem seedRowOf_uid (it : SeedItem) :
    (seedRowOf it).uid = some (it.collection ++ ":" ++ it.id) := rfl

theorem seedRowOf_collection (it : SeedItem) :
    (seedRowOf it).collection = it.collection := rfl

theorem seedRowOf_id (it : SeedItem) : (seedRowOf it).id = it.id := rfl

theorem mem_insertOrReplaceHadith {r row : HadithRow} {db : DB}
    (h : row ∈ (insertOrReplaceHadith r db).hadith) :
    row ∈ db.hadith ∨ row = r := by
  replace h : row ∈ db.hadith.filter (fun row => !uidConflict r row) ++ [r] := h
  rcases List.mem_append.mp h with h | h
  · exact Or.inl (List.mem_filter.mp h).1
  · exact Or.inr (List.mem_singleton.mp h)

theorem mem_foldl_seedStep {rf : SeedItem → Bool} {items : List SeedItem}
    {db : DB} {row : HadithRow}
    (h : row ∈ (items.foldl (seedStep rf) db).hadith) :
    row ∈ db.hadith ∨ ∃ it ∈ items, row = seedRowOf it := by
  induction items generalizing db with
  | nil => exact Or.inl h
  | cons it rest ih =>
    rw [List.foldl_cons] at h
    rcases ih h with h2 | h2
    · rw [seedStep] at h2
      split at h2
      · rcases mem_insertOrReplaceHadith h2 with h3 | h3
        · exact Or.inl h3
        · exact Or.inr ⟨it, List.mem_cons_self _ _, h3⟩
      · exact Or.inl h2
    · obtain ⟨it2, hmem, heq⟩ := h2
      exact Or.inr ⟨it2, List.mem_cons_of_mem _ hmem, heq⟩

theorem nodup_insertOrReplace {r : HadithRow} {db : DB}
    (hn : (someUids db.hadith).Nodup) :
    (someUids (insertOrReplaceHadith r db).hadith).Nodup := by
  show (someUids (db.hadith.filter (fun row => !uidConflict r row) ++ [r])).Nodup
  rw [someUids, List.filterMap_append]
  have hsub : ((db.hadith.filter (fun row => !uidConflict r row)).filterMap
      (fun r => r.uid)).Nodup :=
    List.Nodup.sublist (List.Sublist.filterMap _ (List.filter_sublist _)) hn
  cases hr : r.uid with
  | none =>
    rw [List.nodup_append]
    exact ⟨hsub, by simp [hr], by simp [hr, List.Disjoint]⟩
  | some u =>
    rw [List.nodup_append]
    refine ⟨hsub, by simp [hr], ?_⟩
    rw [List.disjoint_left]
    intro x hx hx2
    have hxu : x = u := by simpa [hr] using hx2
    rw [List.mem_filterMap] at hx
    obtain ⟨row2, hrow2, hru⟩ := hx
    rw [List.mem_filter] at hrow2
    have hpred := hrow2.2
    rw [Bool.not_eq_true'] at hpred
    rw [uidConflict, hr] at hpred
    rw [hxu] at hru
    rw [hru] at hpred
    simp at hpred

theorem nodup_foldl_seedStep {rf : SeedItem → Bool} {items : List SeedItem}
    {db : DB} (hn : (someUids db.hadith).Nodup) :
    (someUids ((items.foldl (seedStep rf) db)).hadith).Nodup := by
  induction items generalizing db with
  | nil => exact hn
  | cons it rest ih =>
    rw [List.foldl_cons]
    apply ih
    rw [seedStep]
    split
    · exact nodup_insertOrReplace hn
    · exact hn

theorem seedPair_hadith (rf : SeedItem → Bool) (it1 it2 : SeedItem) (db : DB)
    (hcol : it1.collection = it2.collection) (hid : it1.id = it2.id)
    (h1 : seedOk rf it1 = true) (h2 : seedOk rf it2 = true)
    (hempty : db.hadith = []) :
    ([it1, it2].foldl (seedStep rf) db).hadith = [seedRowOf it2] := by
  rw [List.foldl_cons, List.foldl_cons, List.foldl_nil]
  rw [seedStep, if_pos h2, seedStep, if_pos h1]
  show ((insertOrReplaceHadith (seedRowOf it1) db).hadith.filter
    (fun row => !uidConflict (seedRowOf it2) row) ++ [seedRowOf it2]) = _
  have hh1 : (insertOrReplaceHadith (seedRowOf it1) db).hadith = [seedRowOf it1] := by
    show db.hadith.filter _ ++ [seedRowOf it1] = _
    rw [hempty]
    rfl
  rw [hh1]
  have hconf : uidConflict (seedRowOf it2) (seedRowOf it1) = true := by
    rw [uidConflict, seedRowOf_uid, seedRowOf_uid, hcol, hid]
    simp
  simp [hconf]

/-! ### Lemmas about the ORDER BY relation -/

theorem lexLTNat_cons (x y : Nat) (xs ys : List Nat) :
    lexLTNat (x :: xs) (y :: ys) =
      (if x < y then true else if x = y then lexLTNat xs ys else false) := rfl

theorem lexLTNat_irrefl (a : List Nat) : lexLTNat a a = false := by
  induction a with
  | nil => rfl
  | cons x xs ih =>
    rw [lexLTNat_cons, if_neg (Nat.lt_irrefl x), if_pos rfl, ih]

theorem lexLTNat_trichotomy (a b : List Nat) :
    lexLTNat a b = true ∨ a = b ∨ lexLTNat b a = true := by
  induction a generalizing b with
  | nil =>
    cases b with
    | nil => exact Or.inr (Or.inl rfl)
    | cons y ys => exact Or.inl rfl
  | cons x xs ih =>
    cases b with
    | nil => exact Or.inr (Or.inr rfl)
    | cons y ys =>
      rcases Nat.lt_trichotomy x y with h | h | h
      · left
        rw [lexLTNat_cons, if_pos h]
      · subst h
        rcases ih ys with h2 | h2 | h2
        · left
          rw [lexLTNat_cons, if_neg (Nat.lt_irrefl x), if_pos rfl]
          exact h2
        · subst h2
          exact Or.inr (Or.inl rfl)
        · right
          right
          rw [lexLTNat_cons, if_neg (Nat.lt_irrefl x), if_pos rfl]
          exact h2
      · right
        right
        rw [lexLTNat_cons, if_pos h]

theorem lexLTNat_trans {a b c : List Nat} (h1 : lexLTNat a b = true)
    (h2 : lexLTNat b c = true) : lexLTNat a c = true := by
  induction a generalizing b c with
  | nil =>
    cases b with
    | nil => exact absurd h1 (by simp [lexLTNat])
    | cons y ys =>
      cases c with
      | nil => exact absurd h2 (by simp [lexLTNat])
      | cons z zs => rfl
  | cons x xs ih =>
    cases b with
    | nil => exact absurd h1 (by simp [lexLTNat])
    | cons y ys =>
      cases c with
      | nil => exact absurd h2 (by simp [lexLTNat])
      | cons z zs =>
        rw [lexLTNat_cons] at h1 h2 ⊢
        by_cases hxy : x < y
        · by_cases hyz : y < z
          · rw [if_pos (Nat.lt_trans hxy hyz)]
          · rw [if_neg hyz] at h2
            by_cases hyz2 : y = z
            · subst hyz2
              rw [if_pos hxy]
            · rw [if_neg hyz2] at h2
              exact absurd h2 (by simp)
        · rw [if_neg hxy] at h1
          by_cases hxy2 : x = y
          · rw [if_pos hxy2] at h1
            subst hxy2
            by_cases hyz : x < z
            · rw [if_pos hyz]
            · rw [if_neg hyz] at h2 ⊢
              by_cases hyz2 : x = z
              · rw [if_pos hyz2] at h2 ⊢
                exact ih h1 h2
              · rw [if_neg hyz2] at h2
                exact absurd h2 (by simp)
          · rw [if_neg hxy2] at h1
            exact absurd h1 (by simp)

theorem rowLE_total (a b : HadithRow) : rowLE a b = true ∨ rowLE b a = true := by
  rcases lexLTNat_trichotomy (strKey a.collection) (strKey b.collection) with h | h | h
  · left
    rw [rowLE, if_pos h]
  · rcases Int.le_total (castTextToInt a.id) (castTextToInt b.id) with h2 | h2
    · left
      rw [rowLE, if_neg (by rw [h, lexLTNat_irrefl]; simp), if_pos h]
      exact decide_eq_true h2
    · right
      rw [rowLE, if_neg (by rw [h, lexLTNat_irrefl]; simp), if_pos h.symm]
      exact decide_eq_true h2
  · right
    rw [rowLE, if_pos h]

theorem rowLE_trans {a b c : HadithRow} (h1 : rowLE a b = true)
    (h2 : rowLE b c = true) : rowLE a c = true := by
  rw [rowLE] at h1 h2 ⊢
  by_cases hab : lexLTNat (strKey a.collection) (strKey b.collection) = true
  · by_cases hbc : lexLTNat (strKey b.collection) (strKey c.collection) = true
    · rw [if_pos (lexLTNat_trans hab hbc)]
    · rw [if_neg (by simp [hbc])] at h2
      by_cases heq : strKey b.collection = strKey c.collection
      · rw [← heq]
        rw [if_pos hab]
      · rw [if_neg heq] at h2
        exact absurd h2 (by simp)
  · rw [if_neg (by simp [hab])] at h1
    by_cases heq : strKey a.collection = strKey b.collection
    · rw [if_pos heq] at h1
      by_cases hbc : lexLTNat (strKey b.collection) (strKey c.collection) = true
      · rw [if_pos (by rw [heq]; exact hbc)]
      · rw [if_neg (by simp [hbc])] at h2
        by_cases heq2 : strKey b.collection = strKey c.collection
        · rw [if_pos heq2] at h2
          rw [if_neg (by rw [heq, heq2, lexLTNat_irrefl]; simp),
            if_pos (heq.trans heq2)]
          exact decide_eq_true
            (Int.le_trans (of_decide_eq_true h1) (of_decide_eq_true h2))
        · rw [if_neg heq2] at h2
          exact absurd h2 (by simp)
    · rw [if_neg heq] at h1
      exact absurd h1 (by simp)

instance : IsTotal HadithRow rowLEP :=
  ⟨fun a b => rowLE_total a b⟩

instance : IsTrans HadithRow rowLEP :=
  ⟨fun _ _ _ h1 h2 => rowLE_trans h1 h2⟩

/-! ### Lemmas about migration -/

theorem mem_dedupFirstAux {x : String} (l seen : List String) (h : x ∈ l) :
    x ∈ seen ∨ x ∈ dedupFirstAux l seen := by
  induction l generalizing seen with
  | nil => exact absurd h (List.not_mem_nil x)
  | cons y ys ih =>
    rw [dedupFirstAux]
    rcases List.mem_cons.mp h with rfl | h2
    · by_cases hc : seen.contains x = true
      · exact Or.inl (by simpa using hc)
      · rw [if_neg hc]
        exact Or.inr (List.mem_cons_self _ _)
    · by_cases hc : seen.contains y = true
      · rw [if_pos hc]
        exact ih seen h2
      · rw [if_neg hc]
        rcases ih (y :: seen) h2 with h3 | h3
        · rcases List.mem_cons.mp h3 with rfl | h4
          · exact Or.inr (List.mem_cons_self _ _)
          · exact Or.inl h4
        · exact Or.inr (List.mem_cons_of_mem _ h3)

theorem mem_dedupFirst_of_mem {x : String} {l : List String} (h : x ∈ l) :
    x ∈ dedupFirst l := by
  rcases mem_dedupFirstAux l [] h with h2 | h2
  · exact absurd h2 (List.not_mem_nil x)
  · exact h2

theorem mem_of_mem_dedupFirstAux {x : String} :
    ∀ {l seen : List String}, x ∈ dedupFirstAux l seen → x ∈ l := by
  intro l
  induction l with
  | nil => intro seen h; exact absurd h (List.not_mem_nil x)
  | cons y ys ih =>
    intro seen h
    rw [dedupFirstAux] at h
    by_cases hc : seen.contains y = true
    · rw [if_pos hc] at h
      exact List.mem_cons_of_mem _ (ih h)
    · rw [if_neg hc] at h
      rcases List.mem_cons.mp h with rfl | h2
      · exact List.mem_cons_self _ _
      · exact List.mem_cons_of_mem _ (ih h2)

theorem mem_of_mem_dedupFirst {x : String} {l : List String}
    (h : x ∈ dedupFirst l) : x ∈ l :=
  mem_of_mem_dedupFirstAux h

theorem bfStep_schema (acc : MigDB) (c : String) :
    (bfStep acc c).schema = acc.schema := by
  rw [bfStep]
  split
  · rfl
  · rfl

theorem bfStep_hadith (acc : MigDB) (c : String) :
    (bfStep acc c).hadith = acc.hadith := by
  rw [bfStep]
  split
  · rfl
  · rfl

theorem foldl_bfStep_schema (L : List String) (s : MigDB) :
    ((L.foldl bfStep s)).schema = s.schema := by
  induction L generalizing s with
  | nil => rfl
  | cons c rest ih => rw [List.foldl_cons, ih, bfStep_schema]

theorem foldl_bfStep_hadith (L : List String) (s : MigDB) :
    ((L.foldl bfStep s)).hadith = s.hadith := by
  induction L generalizing s with
  | nil => rfl
  | cons c rest ih => rw [List.foldl_cons, ih, bfStep_hadith]

theorem bfStep_any_mono {acc : MigDB} {c d : String}
    (h : acc.collections.any (fun k => k.id == d) = true) :
    (bfStep acc c).collections.any (fun k => k.id == d) = true := by
  rw [bfStep]
  split
  · exact h
  · show (acc.collections ++ [CollectionRow.mk c c none none]).any
      (fun k => k.id == d) = true
    rw [List.any_append, h]
    rfl

theorem foldl_bfStep_any_mono {L : List String} {s : MigDB} {d : String}
    (h : s.collections.any (fun k => k.id == d) = true) :
    ((L.foldl bfStep s)).collections.any (fun k => k.id == d) = true := by
  induction L generalizing s with
  | nil => exact h
  | cons c rest ih => exact ih (bfStep_any_mono h)

theorem foldl_bfStep_mem {L : List String} {s : MigDB} {c : String}
    (hc : c ∈ L) :
    ((L.foldl bfStep s)).collections.any (fun k => k.id == c) = true := by
  induction L generalizing s with
  | nil => exact absurd hc (List.not_mem_nil c)
  | cons x rest ih =>
    rw [List.foldl_cons]
    rcases List.mem_cons.mp hc with rfl | h2
    · apply foldl_bfStep_any_mono
      rw [bfStep]
      split
      · assumption
      · show (s.collections ++ [CollectionRow.mk c c none none]).any
          (fun k => k.id == c) = true
        rw [List.any_append]
        simp
    · exact ih h2

theorem backfillCollections_schema (s : MigDB) :
    (backfillCollections s).schema = s.schema :=
  foldl_bfStep_schema _ s

theorem backfillCollections_hadith (s : MigDB) :
    (backfillCollections s).hadith = s.hadith :=
  foldl_bfStep_hadith _ s

theorem backfillCollections_complete (s : MigDB) :
    backfillComplete (backfillCollections s) := by
  intro r hr
  rw [backfillCollections_hadith] at hr
  have hc : r.collection ∈ dedupFirst (s.hadith.map (fun r => r.collection)) :=
    mem_dedupFirst_of_mem (List.mem_map.mpr ⟨r, hr, rfl⟩)
  exact foldl_bfStep_mem hc

theorem foldl_bfStep_id {L : List String} {s : MigDB}
    (h : ∀ c ∈ L, s.collections.any (fun k => k.id == c) = true) :
    L.foldl bfStep s = s := by
  induction L with
  | nil => rfl
  | cons c rest ih =>
    rw [List.foldl_cons, bfStep, if_pos (h c (List.mem_cons_self _ _))]
    exact ih (fun d hd => h d (List.mem_cons_of_mem _ hd))

theorem backfillCollections_of_complete {s : MigDB}
    (hb : backfillComplete s) : backfillCollections s = s := by
  rw [backfillCollections]
  apply foldl_bfStep_id
  intro c hc
  obtain ⟨r, hr, rfl⟩ := List.mem_map.mp (mem_of_mem_dedupFirst hc)
  exact hb r hr

theorem someUids_alter_backfill (l : List HadithRow) :
    someUids ((l.map (fun r => { r with uid := none })).map (fun r =>
      match r.uid with
      | none => { r with uid := some (r.collection ++ ":" ++ r.id) }
      | some _ => r)) = l.map (fun r => r.collection ++ ":" ++ r.id) := by
  induction l with
  | nil => rfl
  | cons r rest ih =>
    rw [List.map_cons, List.map_cons]
    exact congrArg (List.cons (r.collection ++ ":" ++ r.id)) ih

theorem runTransaction_ok {σ α : Type} {db db2 : σ} {a : α}
    {work : σ → Except DBError (σ × α)} (h : work db = .ok (db2, a)) :
    runTransaction db work = (db2, .ok a) := by
  unfold runTransaction
  rw [h]

theorem runTransaction_error {σ α : Type} {db : σ} {e : DBError}
    {work : σ → Except DBError (σ × α)} (h : work db = .error e) :
    runTransaction db work = (db, .error ⟨"Database transaction failed."⟩) := by
  unfold runTransaction
  rw [h]

set_option maxHeartbeats 2000000 in
theorem migrateWork_ok_shape {s0 s2 : MigDB} (hw : migrateWork s0 = .ok (s2, ())) :
    migratedSchema s2 ∧ backfillComplete s2 ∧
    s2.schema.journalWal = s0.schema.journalWal ∧
    s2.schema.foreignKeysOn = s0.schema.foreignKeysOn := by
  simp only [migrateWork, createMetaTable, createCollectionsTable,
    createHadithTable, columnExists, addUidColumn, backfillUid,
    createUniqueIndexUid, createUserSelectedTable] at hw
  split_ifs at hw
  all_goals dsimp only at hw
  all_goals try (split_ifs at hw)
  all_goals simp only [Except.ok.injEq, Prod.mk.injEq, and_true] at hw
  all_goals subst hw
  all_goals
    refine ⟨?_, backfillCollections_complete _, ?_, ?_⟩ <;>
      simp_all [migratedSchema, backfillCollections_schema]

theorem runMigrations_ok_shape {s s2 : MigDB}
    (h : runMigrations s = (s2, .ok ())) :
    migratedSchema s2 ∧ backfillComplete s2 ∧
    s2.schema.journalWal = true ∧ s2.schema.foreignKeysOn = true := by
  rw [runMigrations] at h
  cases hmw : migrateWork
      { s with schema :=
          { s.schema with journalWal := true, foreignKeysOn := true } } with
  | ok pr =>
    obtain ⟨s3, u⟩ := pr
    rw [runTransaction_ok hmw] at h
    simp only [Prod.mk.injEq] at h
    obtain ⟨rfl, h2⟩ := h
    cases u
    have hs := migrateWork_ok_shape hmw
    exact ⟨hs.1, hs.2.1, hs.2.2.1, hs.2.2.2⟩
  | error e =>
    rw [runTransaction_error hmw] at h
    simp at h

theorem runMigrations_of_migrated {s : MigDB} (hm : migratedSchema s)
    (hwal : s.schema.journalWal = true) (hfk : s.schema.foreignKeysOn = true)
    (hb : backfillComplete s) : runMigrations s = (s, .ok ()) := by
  obtain ⟨⟨f1, f2, f3, f4, f5, f6, f7, f8, f9, f10⟩, m, co, ha, us⟩ := s
  simp only [migratedSchema] at hm
  obtain ⟨h1, h2, h3, h4, h5, h6, h7, h8⟩ := hm
  dsimp only at hwal hfk
  subst h1 h2 h3 h4 h5 h6 h7 h8 hwal hfk
  have hmw : migrateWork
      (⟨⟨true, true, true, true, true, true, true, true, true, true⟩,
        m, co, ha, us⟩ : MigDB) =
      .ok (backfillCollections
        ⟨⟨true, true, true, true, true, true, true, true, true, true⟩,
          m, co, ha, us⟩, ()) := rfl
  rw [runMigrations]
  rw [show ({ (⟨⟨true, true, true, true, true, true, true, true, true, true⟩,
      m, co, ha, us⟩ : MigDB) with schema :=
      { (⟨⟨true, true, true, true, true, true, true, true, true, true⟩,
        m, co, ha, us⟩ : MigDB).schema with
        journalWal := true, foreignKeysOn := true } }) =
    (⟨⟨true, true, true, true, true, true, true, true, true, true⟩,
      m, co, ha, us⟩ : MigDB) from rfl]
  rw [runTransaction_ok hmw, backfillCollections_of_complete hb]

theorem runMigrations_idem {s s2 : MigDB} (h : runMigrations s = (s2, .ok ())) :
    runMigrations s2 = (s2, .ok ()) := by
  have hs := runMigrations_ok_shape h
  have hbc : backfillComplete s2 := hs.2.1
  exact runMigrations_of_migrated hs.1 hs.2.2.1 hs.2.2.2 hbc

theorem runMigrations_error_rollback {s s2 : MigDB} {e : DBError}
    (h : runMigrations s = (s2, .error e)) :
    s2 = { s with schema :=
      { s.schema with journalWal := true, foreignKeysOn := true } } := by
  rw [runMigrations] at h
  cases hmw : migrateWork
      { s with schema :=
          { s.schema with journalWal := true, foreignKeysOn := true } } with
  | ok pr =>
    obtain ⟨s3, u⟩ := pr
    rw [runTransaction_ok hmw] at h
    simp at h
  | error e2 =>
    rw [runTransaction_error hmw] at h
    simp only [Prod.mk.injEq] at h
    exact h.1.symm

set_option maxHeartbeats 2000000 in
theorem runMigrations_legacy_ok {s : MigDB}
    (hcol : s.schema.hadithHasUidColumn = false)
    (hnd : (s.hadith.map (fun r => r.collection ++ ":" ++ r.id)).Nodup) :
    (runMigrations s).2 = .ok () := by
  rw [runMigrations]
  cases hmw : migrateWork
      { s with schema :=
          { s.schema with journalWal := true, foreignKeysOn := true } } with
  | ok pr =>
    obtain ⟨s3, u⟩ := pr
    rw [runTransaction_ok hmw]
  | error e =>
    exfalso
    simp only [migrateWork, createMetaTable, createCollectionsTable,
      createHadithTable, columnExists, addUidColumn, backfillUid,
      createUniqueIndexUid, createUserSelectedTable] at hmw
    split_ifs at hmw
    all_goals dsimp only at hmw
    all_goals try (simp only [someUids_alter_backfill] at *)
    all_goals simp_all


/-! ### Remaining support lemmas -/

theorem metaGet_congr {d1 d2 : DB} (h : d1.meta = d2.meta) (k : String) :
    metaGet d1 k = metaGet d2 k := by
  rw [metaGet, metaGet, h]

theorem countP_partition (p : SeedItem → Bool) (l : List SeedItem) :
    l.countP p + l.countP (fun x => !p x) = l.length := by
  induction l with
  | nil => rfl
  | cons x xs ih =>
    rw [List.countP_cons, List.countP_cons, List.length_cons]
    cases hp : p x <;> simp [hp] <;> omega

theorem foldl_seedStep_filter (rf : SeedItem → Bool) (items : List SeedItem)
    (d : DB) :
    items.foldl (seedStep rf) d =
      (items.filter (seedOk rf)).foldl (seedStep rf) d := by
  induction items generalizing d with
  | nil => rfl
  | cons it rest ih =>
    rw [List.foldl_cons]
    cases hok : seedOk rf it
    · rw [List.filter_cons_of_neg (by simp [hok])]
      rw [show seedStep rf d it = d from by rw [seedStep, hok]; rfl]
      exact ih d
    · rw [List.filter_cons_of_pos (by simp [hok]), List.foldl_cons]
      exact ih _

/-! ### The claims -/

/-- C1: `normalizeArabicText` is a pure function applying, to every input
string, exactly the spec's seven transformations in exactly the spec's
order: strip diacritics, strip tatweel, unify the alef variants, map alif
maqsura to ya, map ta marbuta to ha, strip everything outside the Arabic
block and whitespace, then trim.  In addition the output witnesses the
pipeline: it contains no diacritic and no tatweel, only Arabic-block or
whitespace characters, and is already trimmed. -/
theorem claim_normalize_pipeline (s : String) :
    (normalizeArabicText s).data = specNormalizePipeline s.data ∧
    (∀ c ∈ (normalizeArabicText s).data,
      isArabicDiacritic c = false ∧ isTatweel c = false ∧
      (isArabicBlock c || isJsWhitespace c) = true) ∧
    trimChars (normalizeArabicText s).data = (normalizeArabicText s).data := by
  refine ⟨rfl, ?_, ?_⟩
  · intro c hc
    have h := normalKeep_of_mem_normalize (l := s.data) hc
    simp only [normalKeepChar, Bool.and_eq_true, Bool.not_eq_true'] at h
    exact ⟨h.1.1.1.1.1, h.1.1.1.1.2, h.2⟩
  · exact trimChars_normalizeChars s.data

/-- Witness for C1 at a concrete input: the letter ba of the normalised
Basmala is neither a diacritic nor tatweel and lies in the Arabic block. -/
theorem claim_normalize_pipeline_witness :
    isArabicDiacritic 'ب' = false ∧ isTatweel 'ب' = false ∧
    (isArabicBlock 'ب' || isJsWhitespace 'ب') = true :=
  (claim_normalize_pipeline "بِسْمِ").2.1 'ب' (by decide)

/-- C7: `normalizeArabicText` is idempotent. -/
theorem claim_normalize_idempotent (s : String) :
    normalizeArabicText (normalizeArabicText s) = normalizeArabicText s :=
  congrArg String.mk (normalizeChars_idem s.data)

/-- C8 counterexample: the claim asserts that `tokenizeArabicText` returns
exactly 2 tokens on the whitespace-padded input `"  a   b  "`, but the
normalizer deletes the Latin letters `a` and `b` (they are outside the
Arabic block), so the tokenizer returns 0 tokens. -/
theorem claim_tokenizer_counterexample :
    tokenizeArabicText "  a   b  " = [] ∧
    (tokenizeArabicText "  a   b  ").length ≠ 2 :=
  ⟨by decide, by decide⟩

/-- C8 (amended): `tokenizeArabicText` never emits an empty token, and on
whitespace-padded input whose letters survive normalisation — such as the
Arabic `"  ا   ب  "` — it returns exactly 2 tokens; the original example
`"  a   b  "` yields 0 tokens because normalisation strips Latin letters. -/
theorem claim_tokenizer_amended :
    (∀ (s : String), ∀ t ∈ tokenizeArabicText s, t ≠ "") ∧
    (tokenizeArabicText "  ا   ب  ").length = 2 ∧
    (tokenizeArabicText "  a   b  ").length = 0 := by
  refine ⟨?_, by decide, by decide⟩
  intro s t hmem
  replace hmem := (List.mem_filter.mp hmem).2
  intro hcontra
  rw [hcontra] at hmem
  exact absurd hmem (by decide)

/-- Witness for C8's amended claim at a concrete token. -/
theorem claim_tokenizer_amended_witness :
    "ا" ≠ "" ∧ (tokenizeArabicText "  ا   ب  ").length = 2 :=
  ⟨claim_tokenizer_amended.1 "  ا   ب  " "ا" (by decide),
   claim_tokenizer_amended.2.1⟩

/-- C3: `seedDatabaseIfEmpty` short-circuits in order: with `meta.seeded`
equal to `"1"` it changes nothing at all and reports the flag skip; with
the flag unset but the hadith table non-empty it only sets the flag — the
hadith and collections tables are returned unchanged — so a fresh import
can only happen when the flag is unset and the table is empty. -/
theorem claim_seed_short_circuit (rf : SeedItem → Bool) (ff : Bool)
    (items : List SeedItem) (db : DB) :
    (metaGet db "seeded" = some "1" →
      seedDatabaseIfEmpty rf ff items db = (db, .ok .skippedFlagSet)) ∧
    (¬(metaGet db "seeded" = some "1") → db.hadith ≠ [] →
      seedDatabaseIfEmpty rf ff items db =
        ({ db with meta := metaReplace db.meta "seeded" "1" },
         .ok .skippedExistingRows)) := by
  constructor
  · intro h
    exact seedDatabaseIfEmpty_flagSet rf ff items db h
  · intro h hne
    apply seedDatabaseIfEmpty_legacyRows rf ff items db h
    cases hdb : db.hadith with
    | nil => exact absurd hdb hne
    | cons a l => simp

/-- Witness for C3 at concrete stores: a store whose flag is set is left
untouched, and a store with one pre-existing row only gains the flag. -/
theorem claim_seed_short_circuit_witness :
    seedDatabaseIfEmpty (fun _ => false) false [] ⟨[("seeded", "1")], [], [], []⟩ =
      (⟨[("seeded", "1")], [], [], []⟩, .ok .skippedFlagSet) ∧
    seedDatabaseIfEmpty (fun _ => false) false [] ⟨[], [], [seedRowOf demoItem], []⟩ =
      ({ (⟨[], [], [seedRowOf demoItem], []⟩ : DB) with
          meta := metaReplace [] "seeded" "1" },
       .ok .skippedExistingRows) :=
  ⟨(claim_seed_short_circuit _ _ _ _).1 (by decide),
   (claim_seed_short_circuit _ _ _ _).2 (by decide) (by decide)⟩

/-- C4: in the fresh-import path, the hadith inserts and the write of
`meta.seeded = "1"` commit together or not at all: if the transaction fails,
the rollback leaves no imported rows and the flag exactly as it was (hence
not `"1"`); if it completes, the flag is `"1"` and the table holds the full
import. -/
theorem claim_seed_atomicity (rf : SeedItem → Bool) (ff : Bool)
    (items : List SeedItem) (db : DB)
    (hflag : ¬(metaGet db "seeded" = some "1")) (hempty : db.hadith = []) :
    (∀ e, (seedDatabaseIfEmpty rf ff items db).2 = .error e →
      (seedDatabaseIfEmpty rf ff items db).1.hadith = [] ∧
      metaGet (seedDatabaseIfEmpty rf ff items db).1 "seeded" =
        metaGet db "seeded") ∧
    (∀ ins skip,
      (seedDatabaseIfEmpty rf ff items db).2 = .ok (.completed ins skip) →
      metaGet (seedDatabaseIfEmpty rf ff items db).1 "seeded" = some "1" ∧
      (seedDatabaseIfEmpty rf ff items db).1.hadith =
        (items.foldl (seedStep rf) (seedCollectionsPhase items db)).hadith) := by
  cases ff
  · rw [seedDatabaseIfEmpty_fresh_ok rf items db hflag hempty]
    constructor
    · intro e he
      simp at he
    · intro ins skip _
      exact ⟨metaGet_set_self _ "seeded" "1", rfl⟩
  · rw [seedDatabaseIfEmpty_fresh_error rf items db hflag hempty]
    constructor
    · intro e _
      refine ⟨?_, metaGet_congr (seedCollectionsPhase_meta items db) "seeded"⟩
      rw [seedCollectionsPhase_hadith, hempty]
    · intro ins skip h
      simp at h


/-- Witness for C4 at a concrete store: with the flag write failing the
store keeps no rows and no flag; with it succeeding the flag is `"1"` and
the import is complete. -/
theorem claim_seed_atomicity_witness :
    ((seedDatabaseIfEmpty (fun _ => false) true [demoItem] emptyDB).1.hadith = [] ∧
      metaGet (seedDatabaseIfEmpty (fun _ => false) true [demoItem] emptyDB).1
        "seeded" = metaGet emptyDB "seeded") ∧
    (metaGet (seedDatabaseIfEmpty (fun _ => false) false [demoItem] emptyDB).1
        "seeded" = some "1" ∧
      (seedDatabaseIfEmpty (fun _ => false) false [demoItem] emptyDB).1.hadith =
        ([demoItem].foldl (seedStep (fun _ => false))
          (seedCollectionsPhase [demoItem] emptyDB)).hadith) :=
  ⟨(claim_seed_atomicity (fun _ => false) true [demoItem] emptyDB (by decide)
      (by decide)).1 ⟨"Database transaction failed."⟩ (by decide),
   (claim_seed_atomicity (fun _ => false) false [demoItem] emptyDB (by decide)
      (by decide)).2 1 0 (by decide)⟩

/-- C5: every hadith row written by the seeder carries
`uid = collection ++ ":" ++ id`; after a fresh import the non-null uids are
pairwise distinct across the whole table; and seeding two items with the
same `(collection, id)` pair leaves exactly one surviving row with that uid
— the second insert-or-replace replaces the first. -/
theorem claim_uid_invariant (rf : SeedItem → Bool) (items : List SeedItem)
    (db : DB) (hflag : ¬(metaGet db "seeded" = some "1"))
    (hempty : db.hadith = []) :
    (∀ it : SeedItem, (seedRowOf it).uid = some (it.collection ++ ":" ++ it.id)) ∧
    (∀ r ∈ (seedDatabaseIfEmpty rf false items db).1.hadith,
      r.uid = some (r.collection ++ ":" ++ r.id)) ∧
    (someUids (seedDatabaseIfEmpty rf false items db).1.hadith).Nodup ∧
    (∀ it1 it2 : SeedItem, it1.collection = it2.collection → it1.id = it2.id →
      seedOk rf it1 = true → seedOk rf it2 = true →
      (seedDatabaseIfEmpty rf false [it1, it2] db).1.hadith =
        [seedRowOf it2]) := by
  have hbase : (seedCollectionsPhase items db).hadith = [] := by
    rw [seedCollectionsPhase_hadith, hempty]
  refine ⟨fun it => rfl, ?_, ?_, ?_⟩
  · rw [seedDatabaseIfEmpty_fresh_ok rf items db hflag hempty]
    intro r hr
    replace hr : r ∈ (items.foldl (seedStep rf)
      (seedCollectionsPhase items db)).hadith := hr
    rcases mem_foldl_seedStep hr with h2 | h2
    · rw [hbase] at h2
      exact absurd h2 (List.not_mem_nil r)
    · obtain ⟨it, -, rfl⟩ := h2
      rfl
  · rw [seedDatabaseIfEmpty_fresh_ok rf items db hflag hempty]
    show (someUids ((items.foldl (seedStep rf)
      (seedCollectionsPhase items db))).hadith).Nodup
    apply nodup_foldl_seedStep
    rw [hbase]
    exact List.nodup_nil
  · intro it1 it2 hcol hid h1 h2
    rw [seedDatabaseIfEmpty_fresh_ok rf [it1, it2] db hflag hempty]
    show ([it1, it2].foldl (seedStep rf)
      (seedCollectionsPhase [it1, it2] db)).hadith = _
    exact seedPair_hadith rf it1 it2 _ hcol hid h1 h2
      (by rw [seedCollectionsPhase_hadith, hempty])

/-- Witness for C5: the derived uid of the demo item, and the duplicate
`(collection, id)` pair where the second row replaces the first. -/
theorem claim_uid_invariant_witness :
    (seedRowOf demoItem).uid =
      some (demoItem.collection ++ ":" ++ demoItem.id) ∧
    (seedDatabaseIfEmpty (fun _ => false) false [demoItem, demoItem2]
      emptyDB).1.hadith = [seedRowOf demoItem2] :=
  ⟨(claim_uid_invariant (fun _ => false) [] emptyDB (by decide)
      (by decide)).1 demoItem,
   (claim_uid_invariant (fun _ => false) [] emptyDB (by decide)
      (by decide)).2.2.2 demoItem demoItem2 rfl rfl (by decide) (by decide)⟩

/-- C9: in the fresh-import loop a failing or invalid row is counted as
skipped and never aborts the batch: the call reports success for every
failure oracle, inserted plus skipped accounts for every item, and the
final table is exactly the fold over the rows that are valid and did not
fail — the remaining rows are all still processed. -/
theorem claim_seed_row_failures_recovered (rf : SeedItem → Bool)
    (items : List SeedItem) (db : DB)
    (hflag : ¬(metaGet db "seeded" = some "1")) (hempty : db.hadith = []) :
    (seedDatabaseIfEmpty rf false items db).2 =
      .ok (.completed (items.countP (seedOk rf))
        (items.countP (fun it => !seedOk rf it))) ∧
    items.countP (seedOk rf) + items.countP (fun it => !seedOk rf it) =
      items.length ∧
    (seedDatabaseIfEmpty rf false items db).1.hadith =
      ((items.filter (seedOk rf)).foldl (seedStep rf)
        (seedCollectionsPhase items db)).hadith := by
  rw [seedDatabaseIfEmpty_fresh_ok rf items db hflag hempty]
  refine ⟨rfl, countP_partition _ _, ?_⟩
  show (items.foldl (seedStep rf) (seedCollectionsPhase items db)).hadith = _
  rw [foldl_seedStep_filter]

/-- Witness for C9: a batch with one engine-failed row and one invalid row
still completes, reporting 2 inserted and 2 skipped. -/
theorem claim_seed_row_failures_recovered_witness :
    (seedDatabaseIfEmpty demoFailOracle false demoSeedBatch emptyDB).2 =
      .ok (.completed (demoSeedBatch.countP (seedOk demoFailOracle))
        (demoSeedBatch.countP (fun it => !seedOk demoFailOracle it))) ∧
    (seedDatabaseIfEmpty demoFailOracle false demoSeedBatch emptyDB).2 =
      .ok (.completed 2 2) :=
  ⟨(claim_seed_row_failures_recovered demoFailOracle demoSeedBatch emptyDB
      (by decide) (by decide)).1,
   ((claim_seed_row_failures_recovered demoFailOracle demoSeedBatch emptyDB
      (by decide) (by decide)).1).trans (by decide)⟩

/-- C6: `runMigrations` is idempotent — a second run on a database whose
migration succeeded returns the very same state with success, changing no
schema, index or contents — and it is safe to call from any starting state:
a failed run rolls everything back except the two connection-level PRAGMAs,
a fresh file migrates successfully, and a pre-uid legacy schema whose
derived `collection:id` keys are distinct migrates successfully. -/
theorem claim_migrations_idempotent :
    (∀ s s2 : MigDB, runMigrations s = (s2, .ok ()) →
      runMigrations s2 = (s2, .ok ())) ∧
    (∀ (s s2 : MigDB) (e : DBError), runMigrations s = (s2, .error e) →
      s2 = { s with schema :=
        { s.schema with journalWal := true, foreignKeysOn := true } }) ∧
    (runMigrations freshMigDB).2 = .ok () ∧
    (∀ s : MigDB, s.schema.hadithHasUidColumn = false →
      (s.hadith.map (fun r => r.collection ++ ":" ++ r.id)).Nodup →
      (runMigrations s).2 = .ok ()) :=
  ⟨fun _ _ h => runMigrations_idem h,
   fun _ _ _ h => runMigrations_error_rollback h,
   by decide,
   fun _ h1 h2 => runMigrations_legacy_ok h1 h2⟩

/-- Witness for C6: re-running the migration on the freshly migrated file
is the identity, and the concrete one-row legacy database migrates fine. -/
theorem claim_migrations_idempotent_witness :
    runMigrations (runMigrations freshMigDB).1 =
      ((runMigrations freshMigDB).1, .ok ()) ∧
    (runMigrations demoLegacyMigDB).2 = .ok () :=
  ⟨claim_migrations_idempotent.1 freshMigDB (runMigrations freshMigDB).1
      (by decide),
   claim_migrations_idempotent.2.2.2 demoLegacyMigDB (by decide) (by decide)⟩

/-- C2: `searchHadithByText` returns at most 100 rows, sorted by
`(collection, numeric id)`, all drawn from the stored table; whenever at
most 100 rows match, the result holds exactly the stored rows whose
`search_keys` contains the normalized query as a contiguous substring; and
in particular, after seeding a record with `text_ar = "بِسْمِ الله"`,
searching `"بسم"` returns exactly that record. -/
theorem claim_search_by_text (db : DB) (qt : String) :
    (searchHadithByText db qt).length ≤ 100 ∧
    List.Pairwise rowLEP (searchHadithByText db qt) ∧
    (∀ r ∈ searchHadithByText db qt, r ∈ db.hadith) ∧
    ((db.hadith.filter (fun r =>
        likeMatch ('%' :: (normalizeArabicText qt).data ++ ['%'])
          r.search_keys.data)).length ≤ 100 →
      ∀ r : HadithRow, r ∈ searchHadithByText db qt ↔
        r ∈ db.hadith ∧ ∃ a b, r.search_keys.data =
          a ++ (normalizeArabicText qt).data ++ b) ∧
    searchHadithByText
      (seedDatabaseIfEmpty (fun _ => false) false [demoItem] emptyDB).1
      "بسم" = [seedRowOf demoItem] := by
  haveI : IsTotal HadithRow rowLEP := ⟨rowLE_total⟩
  haveI : IsTrans HadithRow rowLEP := ⟨fun _ _ _ => rowLE_trans⟩
  have hrigid : ∀ c ∈ (normalizeArabicText qt).data, likeRigid c = true :=
    fun c hc => likeRigid_of_mem_normalize hc
  have hdef : searchHadithByText db qt =
      ((db.hadith.filter (fun r =>
        likeMatch ('%' :: (normalizeArabicText qt).data ++ ['%'])
          r.search_keys.data)).insertionSort rowLEP).take 100 := rfl
  refine ⟨?_, ?_, ?_, ?_, by decide⟩
  · rw [hdef, List.length_take]
    exact min_le_left _ _
  · rw [hdef]
    exact List.Pairwise.sublist (List.take_sublist _ _)
      (List.sorted_insertionSort rowLEP _)
  · rw [hdef]
    intro r hr
    have h2 := (List.take_sublist _ _).subset hr
    have h3 := (List.perm_insertionSort rowLEP _).mem_iff.mp h2
    exact (List.mem_filter.mp h3).1
  · intro hlen r
    rw [hdef]
    have hperm := List.perm_insertionSort rowLEP
      (db.hadith.filter (fun r =>
        likeMatch ('%' :: (normalizeArabicText qt).data ++ ['%'])
          r.search_keys.data))
    rw [List.take_of_length_le (by rw [hperm.length_eq]; exact hlen)]
    rw [hperm.mem_iff, List.mem_filter]
    constructor
    · rintro ⟨h1, h2⟩
      exact ⟨h1, (likeMatch_substring hrigid _).mp h2⟩
    · rintro ⟨h1, h2⟩
      exact ⟨h1, (likeMatch_substring hrigid _).mpr h2⟩

/-- Witness for C2: in the single-record demo store, the seeded record is a
member of the search result for `"بسم"`. -/
theorem claim_search_by_text_witness :
    seedRowOf demoItem ∈ searchHadithByText
      (seedDatabaseIfEmpty (fun _ => false) false [demoItem] emptyDB).1
      "بسم" :=
  ((claim_search_by_text
      (seedDatabaseIfEmpty (fun _ => false) false [demoItem] emptyDB).1
      "بسم").2.2.2.1 (by decide) (seedRowOf demoItem)).mpr
    ⟨by decide, [], (" الله").data, by decide⟩

/-- C10: a query whose normalization is empty (pure Latin text, digits …)
makes the LIKE pattern degenerate to `%%`: the search returns the first 100
rows of the whole table in `(collection, numeric id)` order instead of
returning no results. -/
theorem claim_search_empty_query (db : DB) (qt : String)
    (h : normalizeArabicText qt = "") :
    searchHadithByText db qt = (db.hadith.insertionSort rowLEP).take 100 ∧
    (db.hadith ≠ [] → searchHadithByText db qt ≠ []) := by
  have hdef : searchHadithByText db qt =
      ((db.hadith.filter (fun r =>
        likeMatch ('%' :: (normalizeArabicText qt).data ++ ['%'])
          r.search_keys.data)).insertionSort rowLEP).take 100 := rfl
  have hfil : db.hadith.filter (fun r =>
      likeMatch ('%' :: (normalizeArabicText qt).data ++ ['%'])
        r.search_keys.data) = db.hadith := by
    apply List.filter_eq_self.mpr
    intro r _
    rw [h]
    exact (likeMatch_substring (q := [])
      (fun c hc => absurd hc (List.not_mem_nil c)) _).mpr
      ⟨[], r.search_keys.data, rfl⟩
  have hmain : searchHadithByText db qt =
      (db.hadith.insertionSort rowLEP).take 100 := by
    rw [hdef, hfil]
  refine ⟨hmain, ?_⟩
  intro hne hcontra
  rw [hmain] at hcontra
  have hlen := congrArg List.length hcontra
  rw [List.length_take, List.length_nil,
    (List.perm_insertionSort rowLEP db.hadith).length_eq] at hlen
  rw [Nat.min_def] at hlen
  split_ifs at hlen
  exact hne (List.length_eq_zero.mp hlen)

/-- Witness for C10: searching Latin text in the one-record demo store
returns the whole (truncated, sorted) table, not no results. -/
theorem claim_search_empty_query_witness :
    searchHadithByText
      (seedDatabaseIfEmpty (fun _ => false) false [demoItem] emptyDB).1
      "hello123" =
      (((seedDatabaseIfEmpty (fun _ => false) false [demoItem]
        emptyDB).1.hadith).insertionSort rowLEP).take 100 ∧
    searchHadithByText
      (seedDatabaseIfEmpty (fun _ => false) false [demoItem] emptyDB).1
      "hello123" ≠ [] :=
  ⟨(claim_search_empty_query _ "hello123" (by decide)).1,
   (claim_search_empty_query _ "hello123" (by decide)).2 (by decide)⟩

end Rawi
